import Mathlib

/-!
Verification of the feature-alignment and inference pipeline of `src/app.py`
(china-vi risk-prediction app).

The embedding follows the prediction block of `app.py` (lines 37-55 and
155-182): asset loading, the feature-alignment loop
`final_data[feat] = user_inputs.get(feat, 0)`, the label-encoding loop over
`encoders.items()`, the `scaler.transform` affine rescaling, the
`model.predict_proba(...)[:, 1][0]` probability, and the decision
`is_high_risk = prob >= optimal_threshold`.  Machine floats are modelled as
rationals; the fitted classifier is an opaque function on vectors.
-/

namespace ChinaVI

/-- A raw value held in `user_inputs` / the one-row DataFrame: Streamlit
selectboxes yield strings, `number_input`/`slider` yield Python ints or
floats, and the alignment default is the Python int `0`. -/
inductive Value where
  | vStr (s : String)
  | vInt (n : Int)
  | vFloat (q : ℚ)
deriving DecidableEq

/-- Python `str(...)` applied to a cell of the one-row DataFrame, as in
`val = str(input_df[col].values[0])` (app.py line 170).  `str` of an int
renders its decimal digits, so `str(0) = "0"`.  The float branch abstracts
Python's float repr (exact only for integral floats such as `0.0`); in the
app the encoder columns hold strings or the integer default, so the float
branch is never consulted by an encoder lookup. -/
def pyStr : Value → String
  | .vStr s => s
  | .vInt n => toString n
  | .vFloat q => if q.den = 1 then toString q.num ++ ".0" else toString q

/-- The `user_inputs` dict: feature name to raw value (unique keys). -/
def FeatureRecord := List (String × Value)

/-- Python `dict` lookup `user_inputs.get(k)`: the entry stored under key
`k`, if any (keys are unique, so first match is the stored entry). -/
def lookupRecord (r : FeatureRecord) (k : String) : Option Value :=
  (List.find? (fun p => p.1 == k) r).map (fun p => p.2)

/-- The feature alignment loop (app.py lines 159-163):
`for feat in feature_list: final_data[feat] = user_inputs.get(feat, 0)`
followed by `pd.DataFrame([final_data])[feature_list]`, which produces
the row in `feature_list` order. -/
def align (feature_list : List String) (user_inputs : FeatureRecord) : List Value :=
  feature_list.map (fun feat => (lookupRecord user_inputs feat).getD (Value.vInt 0))

/-- A fitted sklearn `LabelEncoder`: its `classes_` array (sorted labels
seen at fit time). -/
structure LabelEncoder where
  classes : List String
deriving DecidableEq

/-- `le.transform([val])[0]` for `val` among `classes_`: the index of the
label in the fitted `classes_` array. -/
def LabelEncoder.transform (le : LabelEncoder) (val : String) : Nat :=
  le.classes.indexOf val

/-- `input_df[col].values[0]`: the single row's value in column `col`
(the value paired with the first occurrence of `col` in the column list). -/
def getColVal (features : List String) (vals : List Value) (col : String) : Value :=
  match List.find? (fun p => p.1 == col) (features.zip vals) with
  | some p => p.2
  | none => Value.vInt 0

/-- One iteration of the label-encoding loop (app.py lines 168-174):
`if col in input_df.columns:` read `val = str(input_df[col].values[0])`,
then `input_df[col] = le.transform([val])[0]` if `val in le.classes_`,
else `input_df[col] = 0`.  Column assignment writes every position whose
feature name is `col`. -/
def encodeCol (features : List String) (vals : List Value) (col : String)
    (le : LabelEncoder) : List Value :=
  if col ∈ features then
    let val : String := pyStr (getColVal features vals col)
    let code : Int :=
      if val ∈ le.classes then (le.transform val : Int) else 0
    (features.zip vals).map (fun p => if p.1 = col then Value.vInt code else p.2)
  else
    vals

/-- The whole label-encoding loop: `for col, le in encoders.items(): ...`
(dict iteration; keys are unique). -/
def encodeAll (features : List String) (encs : List (String × LabelEncoder))
    (vals : List Value) : List Value :=
  encs.foldl (fun acc p => encodeCol features acc p.1 p.2) vals

/-- A fitted `StandardScaler`-style normalizer: one (center, scale) pair
per feature position. -/
structure Scaler where
  center : List ℚ
  scale : List ℚ

/-- `scaler.transform(input_df)` (app.py line 179): the fitted per-position
affine transform `(x - center) / scale`, applied to the full vector. -/
def Scaler.transform (sc : Scaler) (xs : List ℚ) : List ℚ :=
  (xs.zip (sc.center.zip sc.scale)).map (fun p => (p.1 - p.2.1) / p.2.2)

/-- Digits-only decimal parse helper for the numeric coercion below. -/
def parseNatDigits? (cs : List Char) : Option Nat :=
  if cs.isEmpty then none
  else
    cs.foldl
      (fun acc c =>
        match acc with
        | none => none
        | some n => if c.isDigit then some (n * 10 + (c.toNat - 48)) else none)
      (some 0)

/-- Numeric coercion of a string cell, as sklearn's `check_array` performs
when `scaler.transform` receives an object-dtype column: parse as a decimal
number, failing (raising) on non-numeric text. -/
def parseDecimal? (s : String) : Option ℚ :=
  let sign : ℚ := if s.startsWith "-" then -1 else 1
  let body := if s.startsWith "-" then s.drop 1 else s
  match body.splitOn "." with
  | [intPart] => (parseNatDigits? intPart.toList).map (fun n => sign * n)
  | [intPart, fracPart] =>
    match parseNatDigits? intPart.toList, parseNatDigits? fracPart.toList with
    | some a, some b => some (sign * ((a : ℚ) + (b : ℚ) / (10 ^ fracPart.length)))
    | _, _ => none
  | _ => none

/-- Coercion of a DataFrame cell to a machine number at `scaler.transform`
time; a non-numeric string makes the call raise (`none`). -/
def Value.toRat? : Value → Option ℚ
  | .vStr s => parseDecimal? s
  | .vInt n => some (n : ℚ)
  | .vFloat q => some q

/-- The loaded assets: the calibrated model (as its positive-class
probability function `predict_proba(...)[:, 1][0]`), the scaler, the
label-encoder registry, and the ordered feature list. -/
structure Assets where
  model : List ℚ → ℚ
  scaler : Scaler
  encoders : List (String × LabelEncoder)
  feature_list : List String

/-- The threshold widget (app.py line 147):
`st.number_input("风险判断阈值", 0.1, 0.9, 0.45, 0.01)` — it accepts exactly
the values between its `min_value = 0.1` and `max_value = 0.9`. -/
def thresholdAccepted (t : ℚ) : Bool :=
  decide ((1 : ℚ)/10 ≤ t) && decide (t ≤ (9 : ℚ)/10)

/-- The prediction block (app.py lines 155-182): align, label-encode,
scale, score, and compare to the threshold (`is_high_risk = prob >=
optimal_threshold`, an inclusive comparison).  `none` models the run
raising inside `scaler.transform` on a non-numeric cell. -/
def infer (a : Assets) (user_inputs : FeatureRecord) (optimal_threshold : ℚ) :
    Option (ℚ × Bool) :=
  let final_data := align a.feature_list user_inputs
  let input_df := encodeAll a.feature_list a.encoders final_data
  match input_df.mapM Value.toRat? with
  | none => none
  | some xs =>
    let input_scaled := a.scaler.transform xs
    let prob := a.model input_scaled
    some (prob, decide (optimal_threshold ≤ prob))

/-- A sequence of button clicks against the same cached assets
(`st.cache_resource` keeps the assets fixed; each click rebuilds
`final_data` from scratch). -/
def runCalls (a : Assets) (calls : List (FeatureRecord × ℚ)) :
    List (Option (ℚ × Bool)) :=
  calls.map (fun c => infer a c.1 c.2)

/-- Outcome of `load_assets()` (app.py lines 37-55): either all four
artifacts, or the error string shown by `st.error`. -/
inductive LoadResult where
  | ok (a : Assets)
  | failed (msg : String)

/-- `load_assets()` (app.py lines 37-55): glob the model files (empty glob
returns the fixed message), then load model, scaler, encoders, and the
feature list in order inside one `try`, so the first raised error aborts
the whole load. -/
def load_assets (model_files : List String)
    (load_model : String → Except String (List ℚ → ℚ))
    (load_scaler : Except String Scaler)
    (load_encoders : Except String (List (String × LabelEncoder)))
    (load_features : Except String (List String)) : LoadResult :=
  match model_files with
  | [] => .failed "未找到模型文件 (.pkl)"
  | f :: _ =>
    match load_model f with
    | .error e => .failed e
    | .ok m =>
      match load_scaler with
      | .error e => .failed e
      | .ok sc =>
        match load_encoders with
        | .error e => .failed e
        | .ok encs =>
          match load_features with
          | .error e => .failed e
          | .ok fl => .ok ⟨m, sc, encs, fl⟩

/-- The page guard (app.py lines 75-77): `if model is None: st.error(...);
st.stop()` — on a failed load the script halts before the prediction block
ever runs, so no inference result is produced. -/
def appRun (lr : LoadResult) (r : FeatureRecord) (t : ℚ) :
    Except String (Option (ℚ × Bool)) :=
  match lr with
  | .failed msg => .error msg
  | .ok a => .ok (infer a r t)

/-! Index-level characterizations of the pipeline steps. -/

theorem align_length (fl : List String) (r : FeatureRecord) :
    (align fl r).length = fl.length := by
  simp [align]

theorem align_getElem? (fl : List String) (r : FeatureRecord) (i : ℕ)
    (hi : i < fl.length) :
    (align fl r)[i]? = some ((lookupRecord r fl[i]).getD (Value.vInt 0)) := by
  simp [align, List.getElem?_map, List.getElem?_eq_getElem hi]

theorem getColVal_nil (vals : List Value) (col : String) :
    getColVal [] vals col = Value.vInt 0 := rfl

theorem getColVal_cons (f0 : String) (fs : List String) (v0 : Value)
    (vs : List Value) (col : String) :
    getColVal (f0 :: fs) (v0 :: vs) col =
      if f0 = col then v0 else getColVal fs vs col := by
  by_cases h : f0 = col <;> simp [getColVal, List.find?_cons, h]

theorem getColVal_congr (features : List String) (vals vals' : List Value)
    (f : String) (hlen : vals.length = features.length)
    (hlen' : vals'.length = features.length)
    (hpt : ∀ i (hi : i < features.length), features[i] = f → vals[i]? = vals'[i]?) :
    getColVal features vals f = getColVal features vals' f := by
  induction features generalizing vals vals' with
  | nil => rfl
  | cons f0 fs ih =>
    cases vals with
    | nil => simp at hlen
    | cons v0 vs =>
      cases vals' with
      | nil => simp at hlen'
      | cons w0 ws =>
        rw [getColVal_cons, getColVal_cons]
        by_cases h : f0 = f
        · have h0 := hpt 0 (by simp) (by simpa using h)
          simp only [List.getElem?_cons_zero, Option.some.injEq] at h0
          simp [h, h0]
        · rw [if_neg h, if_neg h]
          exact ih vs ws (by simpa using hlen) (by simpa using hlen')
            (fun i hi hf => by
              have := hpt (i + 1) (by simpa using Nat.succ_lt_succ hi) (by simpa using hf)
              simpa using this)

theorem encodeCol_length (features : List String) (vals : List Value)
    (col : String) (le : LabelEncoder) (hlen : vals.length = features.length) :
    (encodeCol features vals col le).length = vals.length := by
  by_cases h : col ∈ features <;> simp [encodeCol, h, hlen]

theorem encodeCol_getElem? (features : List String) (vals : List Value)
    (col : String) (le : LabelEncoder) (hlen : vals.length = features.length)
    (i : ℕ) (hi : i < features.length) :
    (encodeCol features vals col le)[i]? =
      if features[i] = col then
        some (Value.vInt (if pyStr (getColVal features vals col) ∈ le.classes
          then ((le.transform (pyStr (getColVal features vals col))) : Int) else 0))
      else vals[i]? := by
  have hiv : i < vals.length := by rw [hlen]; exact hi
  have hz : i < (features.zip vals).length := by simp [hlen, hi]
  by_cases h : col ∈ features
  · simp only [encodeCol, if_pos h, List.getElem?_map,
      List.getElem?_eq_getElem hz, List.getElem_zip, Option.map_some']
    by_cases hf : features[i] = col
    · simp [hf]
    · simp [hf, List.getElem?_eq_getElem hiv]
  · have hne : features[i] ≠ col := fun hc => h (hc ▸ List.getElem_mem hi)
    simp [encodeCol, h, hne]

theorem encodeAll_nil (features : List String) (vals : List Value) :
    encodeAll features [] vals = vals := rfl

theorem encodeAll_cons (features : List String) (p : String × LabelEncoder)
    (encs : List (String × LabelEncoder)) (vals : List Value) :
    encodeAll features (p :: encs) vals =
      encodeAll features encs (encodeCol features vals p.1 p.2) := rfl

theorem encodeAll_length (features : List String)
    (encs : List (String × LabelEncoder)) (vals : List Value)
    (hlen : vals.length = features.length) :
    (encodeAll features encs vals).length = features.length := by
  induction encs generalizing vals with
  | nil => rw [encodeAll_nil, hlen]
  | cons p encs ih =>
    rw [encodeAll_cons]
    exact ih _ (by rw [encodeCol_length _ _ _ _ hlen, hlen])

theorem encodeAll_frame (features : List String)
    (encs : List (String × LabelEncoder)) (vals : List Value)
    (hlen : vals.length = features.length)
    (i : ℕ) (hi : i < features.length)
    (hno : features[i] ∉ encs.map Prod.fst) :
    (encodeAll features encs vals)[i]? = vals[i]? := by
  induction encs generalizing vals with
  | nil => rw [encodeAll_nil]
  | cons p encs ih =>
    simp only [List.map_cons, List.mem_cons, not_or] at hno
    rw [encodeAll_cons,
      ih _ (by rw [encodeCol_length _ _ _ _ hlen, hlen]) hno.2,
      encodeCol_getElem? features vals p.1 p.2 hlen i hi, if_neg hno.1]

theorem encodeAll_getElem_registered (features : List String)
    (encs : List (String × LabelEncoder)) (vals : List Value) (f : String)
    (le : LabelEncoder) (hnd : (encs.map Prod.fst).Nodup) (hmem : (f, le) ∈ encs)
    (hlen : vals.length = features.length)
    (i : ℕ) (hi : i < features.length) (hf : features[i] = f) :
    (encodeAll features encs vals)[i]? =
      some (Value.vInt (if pyStr (getColVal features vals f) ∈ le.classes
        then ((le.transform (pyStr (getColVal features vals f))) : Int) else 0)) := by
  induction encs generalizing vals with
  | nil => cases hmem
  | cons p encs ih =>
    simp only [List.map_cons, List.nodup_cons] at hnd
    have hlen' : (encodeCol features vals p.1 p.2).length = features.length := by
      rw [encodeCol_length _ _ _ _ hlen, hlen]
    rcases List.mem_cons.1 hmem with hhead | htail
    · cases hhead
      rw [encodeAll_cons, encodeAll_frame features encs _ hlen' i hi (hf ▸ hnd.1),
        encodeCol_getElem? features vals f le hlen i hi, if_pos hf]
    · have hp1 : p.1 ≠ f := by
        intro hc
        exact hnd.1 (hc ▸ List.mem_map.2 ⟨(f, le), htail, rfl⟩)
      have hcv : getColVal features (encodeCol features vals p.1 p.2) f =
          getColVal features vals f := by
        refine getColVal_congr features _ vals f hlen' hlen (fun j hj hjf => ?_)
        rw [encodeCol_getElem? features vals p.1 p.2 hlen j hj,
          if_neg (by rw [hjf]; exact fun hc => hp1 hc.symm)]
      rw [encodeAll_cons, ih _ hnd.2 htail hlen', hcv]

theorem getColVal_align (features : List String) (r : FeatureRecord) (f : String)
    (hf : f ∈ features) :
    getColVal features (align features r) f = (lookupRecord r f).getD (Value.vInt 0) := by
  induction features with
  | nil => cases hf
  | cons f0 fs ih =>
    rw [show align (f0 :: fs) r =
        ((lookupRecord r f0).getD (Value.vInt 0)) :: align fs r from rfl,
      getColVal_cons]
    by_cases h : f0 = f
    · simp [h]
    · have hmem : f ∈ fs := by
        rcases List.mem_cons.1 hf with h1 | h1
        · exact absurd h1.symm h
        · exact h1
      simp [h, ih hmem]

theorem transform_length (sc : Scaler) (xs : List ℚ)
    (hc : sc.center.length = xs.length) (hs : sc.scale.length = xs.length) :
    (sc.transform xs).length = xs.length := by
  simp [Scaler.transform, hc, hs]

theorem runCalls_length (a : Assets) (calls : List (FeatureRecord × ℚ)) :
    (runCalls a calls).length = calls.length := by
  simp [runCalls]

/-- Concrete label encoders used by the evaluation witnesses: `hear` with
fitted classes `["0", "1"]`, `edu` with `["1", "2", "3", "4"]`, and `srh`
with `["-1", "0", "1"]` (so the fitted code of the label `"0"` is 1). -/
def demoEncoders : List (String × LabelEncoder) :=
  [("hear", ⟨["0", "1"]⟩), ("edu", ⟨["1", "2", "3", "4"]⟩),
   ("srh", ⟨["-1", "0", "1"]⟩)]

/-- Concrete assets used by the evaluation witnesses: a four-feature schema,
an identity-like scaler, and a constant-probability model. -/
def demoAssets : Assets where
  model := fun _ => 1/2
  scaler := { center := [0, 0, 0, 0], scale := [1, 1, 1, 1] }
  encoders := demoEncoders
  feature_list := ["age", "hear", "edu", "srh"]

/-- Evaluation of the demo pipeline on the empty record: every feature
defaults, `hear` encodes `"0"` to its fitted code 0, `edu` falls back to 0
(`"0"` is out of its vocabulary), `srh` encodes `"0"` to its fitted code 1,
and the constant demo model reports probability 1/2. -/
theorem demo_infer_eval (t : ℚ) :
    infer demoAssets [] t = some (1/2, decide (t ≤ 1/2)) := by
  have hm : (encodeAll demoAssets.feature_list demoAssets.encoders
      (align demoAssets.feature_list [])).mapM Value.toRat? =
      some [(0 : ℚ), 0, 0, 1] := by decide
  simp only [infer, hm]
  rfl

/-- C1: for every partial record, the aligned vector has exactly one entry
per schema feature in schema order — a feature present in the record keeps
its raw value, an absent one is filled with the default 0 — and its length
equals the schema length, including for the empty record. -/
theorem align_one_slot_per_feature (fl : List String) (r : FeatureRecord)
    (i : ℕ) (hfl : i < fl.length) (hal : i < (align fl r).length) :
    (align fl r).length = fl.length ∧
    (align fl r)[i] = (lookupRecord r fl[i]).getD (Value.vInt 0) := by
  refine ⟨align_length fl r, ?_⟩
  have h := align_getElem? fl r i hfl
  rw [List.getElem?_eq_getElem hal] at h
  exact Option.some.inj h

/-- Witness for C1 at the schema [age, hear, edu] and a record carrying
only age: slot 1 (hear, absent) holds the default 0. -/
theorem align_one_slot_per_feature_witness :
    (align ["age", "hear", "edu"] [("age", Value.vInt 65)]).length = 3 ∧
    (align ["age", "hear", "edu"] [("age", Value.vInt 65)]).get ⟨1, by decide⟩ =
      Value.vInt 0 := by
  have h := align_one_slot_per_feature ["age", "hear", "edu"]
    [("age", Value.vInt 65)] 1 (by decide) (by decide)
  exact ⟨h.1, h.2.trans (by decide)⟩

/-- C2 counterexample: the threshold 1/20 = 0.05 lies strictly inside
(0,1), yet the threshold widget rejects it, so it is not the case that
every threshold inside (0,1) is accepted. -/
theorem threshold_inside_unit_interval_rejected :
    (0 < (1 : ℚ)/20 ∧ (1 : ℚ)/20 < 1) ∧
      thresholdAccepted ((1 : ℚ)/20) = false := by
  refine ⟨⟨by norm_num, by norm_num⟩, ?_⟩
  norm_num [thresholdAccepted]

/-- C2 (amended): the threshold widget accepts exactly the values of the
closed interval [0.1, 0.9]; every accepted threshold therefore lies inside
(0,1), but out-of-range values are refused by the widget's min/max bounds —
there is no `InvalidThreshold` error — and values inside (0,1) but below
0.1 or above 0.9 are refused as well. -/
theorem threshold_widget_interval (t : ℚ) :
    (thresholdAccepted t = true ↔ ((1 : ℚ)/10 ≤ t ∧ t ≤ (9 : ℚ)/10)) ∧
    (thresholdAccepted t = true → 0 < t ∧ t < 1) := by
  constructor
  · simp [thresholdAccepted]
  · intro h
    rw [thresholdAccepted, Bool.and_eq_true, decide_eq_true_eq,
      decide_eq_true_eq] at h
    constructor <;> linarith [h.1, h.2]

/-- Witness for the amended C2 at the in-range threshold 1/2. -/
theorem threshold_widget_interval_witness :
    thresholdAccepted ((1 : ℚ)/2) = true ∧
      (0 < (1 : ℚ)/2 ∧ (1 : ℚ)/2 < 1) := by
  have h := threshold_widget_interval ((1 : ℚ)/2)
  have hacc : thresholdAccepted ((1 : ℚ)/2) = true :=
    h.1.mpr ⟨by norm_num, by norm_num⟩
  exact ⟨hacc, h.2 hacc⟩

/-- C5: record keys outside the feature schema are ignored — two records
that agree on every schema feature produce the same aligned vector and the
same inference result, whatever extra keys they carry. -/
theorem nonschema_keys_no_effect (a : Assets) (r1 r2 : FeatureRecord) (t : ℚ)
    (hagree : ∀ f ∈ a.feature_list, lookupRecord r1 f = lookupRecord r2 f) :
    align a.feature_list r1 = align a.feature_list r2 ∧
      infer a r1 t = infer a r2 t := by
  have halign : align a.feature_list r1 = align a.feature_list r2 :=
    List.map_congr_left (fun f hf => by rw [hagree f hf])
  exact ⟨halign, by simp only [infer, halign]⟩

/-- Witness for C5: adding the non-schema key "zzz" changes nothing. -/
theorem nonschema_keys_no_effect_witness :
    align demoAssets.feature_list [("age", Value.vInt 65)] =
      align demoAssets.feature_list
        [("age", Value.vInt 65), ("zzz", Value.vInt 9)] ∧
    infer demoAssets [("age", Value.vInt 65)] ((1 : ℚ)/2) =
      infer demoAssets [("age", Value.vInt 65), ("zzz", Value.vInt 9)]
        ((1 : ℚ)/2) :=
  nonschema_keys_no_effect demoAssets _ _ _ (by decide)

/-- C6: the encoding step only rewrites columns whose feature name has a
registered encoder; a feature without one passes through unchanged. -/
theorem unregistered_features_untouched (features : List String)
    (encs : List (String × LabelEncoder)) (vals : List Value)
    (hlen : vals.length = features.length) (i : ℕ)
    (hif : i < features.length) (hiv : i < vals.length)
    (hie : i < (encodeAll features encs vals).length)
    (hno : features[i] ∉ encs.map Prod.fst) :
    (encodeAll features encs vals)[i] = vals[i] := by
  have h := encodeAll_frame features encs vals hlen i hif hno
  rw [List.getElem?_eq_getElem hie, List.getElem?_eq_getElem hiv] at h
  exact Option.some.inj h

/-- Witness for C6: `age` has no registered encoder, so its raw value 65
survives the encoding step. -/
theorem unregistered_features_untouched_witness :
    (encodeAll ["age", "hear", "edu", "srh"] demoEncoders
      [Value.vInt 65, Value.vStr "1", Value.vStr "9", Value.vStr "3"]).get
        ⟨0, by decide⟩ = Value.vInt 65 := by
  have h := unregistered_features_untouched ["age", "hear", "edu", "srh"]
    demoEncoders [Value.vInt 65, Value.vStr "1", Value.vStr "9", Value.vStr "3"]
    (by decide) 0 (by decide) (by decide) (by decide) (by decide)
  exact h.trans (by decide)

/-- C8: inference is deterministic and stateless across calls — in any
call sequence against the same cached assets, two calls with identical
record and threshold return identical results, whatever the surrounding
calls entered. -/
theorem inference_stateless_across_calls (a : Assets)
    (calls : List (FeatureRecord × ℚ)) (i j : ℕ)
    (hi : i < calls.length) (hj : j < calls.length)
    (hic : i < (runCalls a calls).length) (hjc : j < (runCalls a calls).length)
    (heq : calls[i] = calls[j]) :
    (runCalls a calls)[i] = (runCalls a calls)[j] := by
  simp only [runCalls, List.getElem_map]
  rw [heq]

/-- Witness for C8: calls 0 and 2 are identical and an unrelated call sits
between them; their results coincide. -/
theorem inference_stateless_across_calls_witness :
    (runCalls demoAssets
      [([("age", Value.vInt 65)], (1 : ℚ)/2), ([], (9 : ℚ)/10),
       ([("age", Value.vInt 65)], (1 : ℚ)/2)]).get ⟨0, by decide⟩ =
    (runCalls demoAssets
      [([("age", Value.vInt 65)], (1 : ℚ)/2), ([], (9 : ℚ)/10),
       ([("age", Value.vInt 65)], (1 : ℚ)/2)]).get ⟨2, by decide⟩ :=
  inference_stateless_across_calls demoAssets _ 0 2 (by decide) (by decide)
    (by decide) (by decide) rfl

/-- C3: for a feature with a registered encoder, a column value whose
string coercion is outside the fitted classes encodes to the fallback code
0, while a known label encodes to its fitted integer code (its index in the
fitted classes); the encoding functions are total, so no input raises. -/
theorem encode_known_or_fallback (features : List String)
    (encs : List (String × LabelEncoder)) (vals : List Value) (f : String)
    (le : LabelEncoder) (hnd : (encs.map Prod.fst).Nodup)
    (hmem : (f, le) ∈ encs) (hlen : vals.length = features.length) (i : ℕ)
    (hif : i < features.length)
    (hie : i < (encodeAll features encs vals).length)
    (hf : features[i] = f) :
    (pyStr (getColVal features vals f) ∉ le.classes →
      (encodeAll features encs vals)[i] = Value.vInt 0) ∧
    (pyStr (getColVal features vals f) ∈ le.classes →
      (encodeAll features encs vals)[i] =
        Value.vInt (le.transform (pyStr (getColVal features vals f)))) := by
  have h := encodeAll_getElem_registered features encs vals f le hnd hmem
    hlen i hif hf
  rw [List.getElem?_eq_getElem hie] at h
  have h' := Option.some.inj h
  constructor
  · intro hnot
    rw [h', if_neg hnot]
  · intro hyes
    rw [h', if_pos hyes]

/-- Witness for C3: the unknown edu label "9" falls back to code 0, the
known hear label "1" encodes to its fitted code 1. -/
theorem encode_known_or_fallback_witness :
    (encodeAll ["age", "hear", "edu", "srh"] demoEncoders
      [Value.vInt 65, Value.vStr "1", Value.vStr "9", Value.vStr "3"]).get
        ⟨2, by decide⟩ = Value.vInt 0 ∧
    (encodeAll ["age", "hear", "edu", "srh"] demoEncoders
      [Value.vInt 65, Value.vStr "1", Value.vStr "9", Value.vStr "3"]).get
        ⟨1, by decide⟩ = Value.vInt 1 := by
  constructor
  · exact (encode_known_or_fallback ["age", "hear", "edu", "srh"] demoEncoders
      [Value.vInt 65, Value.vStr "1", Value.vStr "9", Value.vStr "3"] "edu"
      ⟨["1", "2", "3", "4"]⟩ (by decide) (by decide) (by decide) 2 (by decide)
      (by decide) (by decide)).1 (by decide)
  · have h := (encode_known_or_fallback ["age", "hear", "edu", "srh"]
      demoEncoders
      [Value.vInt 65, Value.vStr "1", Value.vStr "9", Value.vStr "3"] "hear"
      ⟨["0", "1"]⟩ (by decide) (by decide) (by decide) 1 (by decide)
      (by decide) (by decide)).2 (by decide)
    exact h.trans (by decide)

/-- C4: writing an inference result as (p, b), the decision b is true
exactly when p >= t — the boundary is inclusive, so p equal to the
threshold counts as high risk — and the probability does not depend on the
threshold: the same record under any other threshold u yields the same p,
decided against u. -/
theorem decision_iff_inclusive_threshold (a : Assets) (r : FeatureRecord)
    (t u : ℚ) (p : ℚ) (b : Bool) (h : infer a r t = some (p, b)) :
    (b = true ↔ t ≤ p) ∧
    ∃ c : Bool, infer a r u = some (p, c) ∧ (c = true ↔ u ≤ p) := by
  simp only [infer] at h ⊢
  cases hm : (encodeAll a.feature_list a.encoders
      (align a.feature_list r)).mapM Value.toRat? with
  | none =>
    rw [hm] at h
    cases h
  | some xs =>
    rw [hm] at h
    simp only [Option.some.injEq, Prod.mk.injEq] at h
    obtain ⟨hp, hb⟩ := h
    subst hp
    subst hb
    exact ⟨by simp, decide (u ≤ a.model (a.scaler.transform xs)), rfl, by simp⟩

/-- Witness for C4 on the demo pipeline: probability 1/2 under thresholds
9/20 and 7/10. -/
theorem decision_iff_inclusive_threshold_witness :
    ((decide ((9 : ℚ)/20 ≤ 1/2) = true ↔ (9 : ℚ)/20 ≤ 1/2) ∧
      ∃ c : Bool, infer demoAssets [] ((7 : ℚ)/10) = some (1/2, c) ∧
        (c = true ↔ (7 : ℚ)/10 ≤ 1/2)) :=
  decision_iff_inclusive_threshold demoAssets [] ((9 : ℚ)/20) ((7 : ℚ)/10)
    (1/2) (decide ((9 : ℚ)/20 ≤ 1/2)) (demo_infer_eval ((9 : ℚ)/20))

/-- C7: normalization applies the fitted per-position affine transform to
every position of its input vector — entry i of the output is
(x_i - center_i) / scale_i — with no position exempted, and the output
keeps the input length. -/
theorem scaling_hits_every_position (sc : Scaler) (xs : List ℚ)
    (hc : sc.center.length = xs.length) (hs : sc.scale.length = xs.length)
    (i : ℕ) (hix : i < xs.length) (hit : i < (sc.transform xs).length)
    (hic : i < sc.center.length) (his : i < sc.scale.length) :
    (sc.transform xs).length = xs.length ∧
    (sc.transform xs)[i] = (xs[i] - sc.center[i]) / sc.scale[i] := by
  refine ⟨transform_length sc xs hc hs, ?_⟩
  simp [Scaler.transform, List.getElem_zip]

/-- Witness for C7 at position 2 of a three-feature scaler. -/
theorem scaling_hits_every_position_witness :
    ((Scaler.mk [1, 2, 3] [2, 4, 8]).transform [5, 6, 7]).length = 3 ∧
    ((Scaler.mk [1, 2, 3] [2, 4, 8]).transform [5, 6, 7]).get ⟨2, by decide⟩ =
      ((7 : ℚ) - 3) / 8 :=
  scaling_hits_every_position (Scaler.mk [1, 2, 3] [2, 4, 8]) [5, 6, 7]
    (by decide) (by decide) 2 (by decide) (by decide) (by decide) (by decide)

/-- C9: when asset loading fails the page run surfaces the load error and
produces no inference result, and an inference-serving state exists exactly
when the model glob is non-empty and model, scaler, encoders, and feature
list all load. -/
theorem failed_load_refuses_inference (mf : List String)
    (lm : String → Except String (List ℚ → ℚ)) (ls : Except String Scaler)
    (lenc : Except String (List (String × LabelEncoder)))
    (lf : Except String (List String)) (r : FeatureRecord) (t : ℚ) :
    (∀ msg, load_assets mf lm ls lenc lf = .failed msg →
      appRun (load_assets mf lm ls lenc lf) r t = .error msg) ∧
    ((∃ a, load_assets mf lm ls lenc lf = .ok a) ↔
      (∃ f fs m sc encs fl, mf = f :: fs ∧ lm f = .ok m ∧ ls = .ok sc ∧
        lenc = .ok encs ∧ lf = .ok fl)) := by
  constructor
  · intro msg h
    rw [h]
    rfl
  · constructor
    · rintro ⟨a, ha⟩
      cases mf with
      | nil => simp [load_assets] at ha
      | cons f fs =>
        cases hm : lm f with
        | error e => simp [load_assets, hm] at ha
        | ok m =>
          cases hsc : ls with
          | error e => simp [load_assets, hm, hsc] at ha
          | ok sc =>
            cases henc : lenc with
            | error e => simp [load_assets, hm, hsc, henc] at ha
            | ok encs =>
              cases hfl : lf with
              | error e => simp [load_assets, hm, hsc, henc, hfl] at ha
              | ok fl => exact ⟨f, fs, m, sc, encs, fl, rfl, hm, rfl, rfl, rfl⟩
    · rintro ⟨f, fs, m, sc, encs, fl, hmf, hm, hsc, henc, hfl⟩
      subst hmf
      exact ⟨⟨m, sc, encs, fl⟩, by simp [load_assets, hm, hsc, henc, hfl]⟩

/-- Witness for C9: an empty model glob yields the fixed load error and the
page run stops with it. -/
theorem failed_load_refuses_inference_witness :
    appRun (load_assets [] (fun _ => Except.ok (fun _ => (1 : ℚ)/2))
        (Except.ok (Scaler.mk [0] [1])) (Except.ok demoEncoders)
        (Except.ok ["age"])) [] ((1 : ℚ)/2) =
      Except.error "未找到模型文件 (.pkl)" :=
  (failed_load_refuses_inference [] (fun _ => Except.ok (fun _ => (1 : ℚ)/2))
    (Except.ok (Scaler.mk [0] [1])) (Except.ok demoEncoders)
    (Except.ok ["age"]) [] ((1 : ℚ)/2)).1 "未找到模型文件 (.pkl)" rfl

/-- C10: a categorical feature with a registered encoder that is absent
from the record is first filled with the integer default 0, whose string
coercion is "0"; its encoded value is therefore the encoder's fitted code
of the label "0" when "0" is among the fitted classes — which may differ
from 0 — and the fallback code 0 only when "0" is out of vocabulary. -/
theorem absent_categorical_default_code (features : List String)
    (encs : List (String × LabelEncoder)) (r : FeatureRecord) (f : String)
    (le : LabelEncoder) (hnd : (encs.map Prod.fst).Nodup)
    (hmem : (f, le) ∈ encs) (habsent : lookupRecord r f = none) (i : ℕ)
    (hif : i < features.length)
    (hie : i < (encodeAll features encs (align features r)).length)
    (hf : features[i] = f) :
    (encodeAll features encs (align features r))[i] =
      Value.vInt (if "0" ∈ le.classes then (le.transform "0" : Int) else 0) := by
  have hfm : f ∈ features := hf ▸ List.getElem_mem hif
  have hg : getColVal features (align features r) f = Value.vInt 0 := by
    rw [getColVal_align features r f hfm, habsent]
    rfl
  have h := encodeAll_getElem_registered features encs (align features r) f le
    hnd hmem (align_length features r) i hif hf
  rw [List.getElem?_eq_getElem hie, hg] at h
  have hps : pyStr (Value.vInt 0) = "0" := rfl
  rw [hps] at h
  exact Option.some.inj h

/-- Witness for C10: `srh` is absent from the record, its encoder knows the
label "0" at fitted code 1, so the encoded default is 1, not 0. -/
theorem absent_categorical_default_code_witness :
    (encodeAll ["age", "hear", "edu", "srh"] demoEncoders
      (align ["age", "hear", "edu", "srh"] [("age", Value.vInt 65)])).get
        ⟨3, by decide⟩ = Value.vInt 1 := by
  have h := absent_categorical_default_code ["age", "hear", "edu", "srh"]
    demoEncoders [("age", Value.vInt 65)] "srh" ⟨["-1", "0", "1"]⟩ (by decide)
    (by decide) (by decide) 3 (by decide) (by decide) (by decide)
  exact h.trans (by decide)

end ChinaVI
